import Mathlib

/-!
Shallow embedding of the MCQ extraction core of `backend/app/docx_extract.py`:
the paragraph classifier, the list-level resolver, the bold-answer detector,
and the stateful assembler `parse_docx_mcq` that folds an ordered paragraph
sequence into a draft of questions, options and warnings.

A paragraph is modelled as the record the core reads from the document
reader: plain text, style name, optional direct list-numbering index, and the
ordered sequence of text runs with their bold flags.
-/

/-- One formatting run inside a paragraph: its text and its bold flag. -/
structure TextRun where
  text : String
  bold : Bool
deriving DecidableEq

/-- The paragraph record the extraction core reads: `text` is the paragraph
text, `styleName` the paragraph style's name (empty when absent), `ilvl` the
direct list-numbering nesting index when the paragraph carries one
(`pPr.numPr.ilvl.val`), and `runs` the paragraph's formatting runs. -/
structure RawParagraph where
  text : String
  styleName : String
  ilvl : Option Int
  runs : List TextRun
deriving DecidableEq

/-- An answer option of a question: `{"text": ..., "isCorrect": ...}`. -/
structure AnswerOption where
  text : String
  isCorrect : Bool
deriving DecidableEq

/-- A question of the draft: `{"text": ..., "options": [...]}`. -/
structure Question where
  text : String
  options : List AnswerOption
deriving DecidableEq

/-- The extraction result: `{"title": ..., "questions": [...], "warnings": [...]}`. -/
structure Draft where
  title : String
  questions : List Question
  warnings : List String
deriving DecidableEq

/-- The classifier's paragraph kinds. -/
inductive Kind where
  | EMPTY
  | QUESTION
  | OPTION
  | OTHER
deriving DecidableEq

/-! ### String primitives

The Python string operations the core uses (`strip`, `lower`, `startswith`,
`split`, `in`, slicing, `int(...)`) are modelled over the character list of
the string so that every definition evaluates by kernel reduction.
Whitespace is `Char.isWhitespace`, digits are the ASCII digits. -/

/-- `s.strip()`: remove leading and trailing whitespace. -/
def trimChars (cs : List Char) : List Char :=
  ((cs.dropWhile Char.isWhitespace).reverse.dropWhile Char.isWhitespace).reverse

/-- `s.strip()` on strings. -/
def strTrim (s : String) : String := String.mk (trimChars s.data)

/-- `s.lower()`. -/
def strToLower (s : String) : String := String.mk (s.data.map Char.toLower)

/-- Character-list version of `s.startswith(pre)`. -/
def charsStartWith : List Char → List Char → Bool
  | [], _ => true
  | _ :: _, [] => false
  | a :: as, c :: cs => a = c && charsStartWith as cs

/-- `s.startswith(pre)`. -/
def strStartsWith (s pre : String) : Bool := charsStartWith pre.data s.data

/-- `c in s` for a single character `c`. -/
def strContainsChar (s : String) (c : Char) : Bool := s.data.any (fun d => d = c)

/-- `s[:n]`. -/
def strTake (s : String) (n : Nat) : String := String.mk (s.data.take n)

/-- The last whitespace-separated token of the string (`s.split()[-1]`),
`[]` when the string has no non-whitespace character. -/
def lastToken (cs : List Char) : List Char :=
  ((cs.reverse.dropWhile Char.isWhitespace).takeWhile (fun c => !c.isWhitespace)).reverse

/-- `int(s)` for a string of ASCII digits. -/
def digitsToNat (cs : List Char) : Nat :=
  cs.foldl (fun n c => n * 10 + (c.toNat - 48)) 0

/-! ### The two regular expressions

`Q_RE = ^(question\s*\d+|q\s*\d+|\d+[\.\)])\s+` (case-insensitive) and
`OPT_RE = ^([A-Ha-h][\.\)])\s+`, both anchored at the start of the string.
Greedy `\s*`/`\d+`/`\s+` runs followed by a character of a disjoint class
never backtrack, and the three `Q_RE` alternatives are mutually exclusive on
any input, so the match is the deterministic function below.  `matchQ`/`matchOpt`
return the remainder of the string after the whole match (group plus the
trailing mandatory whitespace run), or `none` when the regex does not match. -/

/-- Consume one or more characters satisfying `p` (a greedy `p+` run);
`none` when the first character does not satisfy `p`. -/
def chomp1 (p : Char → Bool) : List Char → Option (List Char)
  | [] => none
  | c :: rest => if p c then some (rest.dropWhile p) else none

/-- Consume the given characters case-insensitively (the pattern is given in
lowercase); `none` when the input does not start with them. -/
def chompCI : List Char → List Char → Option (List Char)
  | [], cs => some cs
  | _ :: _, [] => none
  | a :: as, c :: cs => if c.toLower = a then chompCI as cs else none

/-- The group of `Q_RE`: `question\s*\d+`, or `q\s*\d+`, or `\d+[\.\)]`,
alternatives tried left to right.  Returns the remainder after the group. -/
def qGroup (cs : List Char) : Option (List Char) :=
  match chompCI "question".data cs with
  | some rest => chomp1 Char.isDigit (rest.dropWhile Char.isWhitespace)
  | none =>
    match chompCI "q".data cs with
    | some rest => chomp1 Char.isDigit (rest.dropWhile Char.isWhitespace)
    | none =>
      match chomp1 Char.isDigit cs with
      | some ('.' :: rest) => some rest
      | some (')' :: rest) => some rest
      | _ => none

/-- Full `Q_RE` match at the start of the string: the group followed by `\s+`.
Returns the remainder after the match. -/
def qMatch (s : String) : Option String :=
  match qGroup s.data with
  | some rest =>
    match chomp1 Char.isWhitespace rest with
    | some rest2 => some (String.mk rest2)
    | none => none
  | none => none

/-- The group of `OPT_RE`: a single letter `A`–`H` (either case) followed by
`.` or `)`. -/
def optGroup : List Char → Option (List Char)
  | c :: d :: rest =>
    if (('A' ≤ c ∧ c ≤ 'H') ∨ ('a' ≤ c ∧ c ≤ 'h')) ∧ (d = '.' ∨ d = ')')
    then some rest else none
  | _ => none

/-- Full `OPT_RE` match at the start of the string: the group followed by
`\s+`.  Returns the remainder after the match. -/
def optMatch (s : String) : Option String :=
  match optGroup s.data with
  | some rest =>
    match chomp1 Char.isWhitespace rest with
    | some rest2 => some (String.mk rest2)
    | none => none
  | none => none

/-- `Q_RE.match(text)` as a Boolean. -/
def qReMatch (s : String) : Bool := (qMatch s).isSome

/-- `Q_RE.sub("", text)`: the pattern is anchored, so at most one match is
removed, and the string is unchanged when the regex does not match. -/
def qReSub (s : String) : String := (qMatch s).getD s

/-- `OPT_RE.match(text)` as a Boolean. -/
def optReMatch (s : String) : Bool := (optMatch s).isSome

/-- `OPT_RE.sub("", text)`. -/
def optReSub (s : String) : String := (optMatch s).getD s

/-! ### List-level resolver (`get_list_level`) -/

/-- The style-name branch of `get_list_level`: for a lowercased style name
starting with `"list number"`, split on whitespace and, when the last token
is a numeral `n`, return `n - 1`, else `0`
(Python: `parts = style_name.split(); int(parts[-1]) - 1` / `0`). -/
def listNumberLevel (styleLower : String) : Int :=
  let lastTok := lastToken styleLower.data
  if lastTok ≠ [] ∧ lastTok.all Char.isDigit then (digitsToNat lastTok : Int) - 1
  else 0

/-- `get_list_level(paragraph)`: direct numbering metadata first, returned
verbatim; else the style-name fallback for styles named `"list number..."`;
else no level. -/
def get_list_level (p : RawParagraph) : Option Int :=
  match p.ilvl with
  | some i => some i
  | none =>
    let styleLower := strToLower p.styleName
    if strStartsWith styleLower "list number" = true then some (listNumberLevel styleLower)
    else none

/-! ### Paragraph classifier (`classify_paragraph`) and detector -/

/-- `classify_paragraph(p)`: trim; empty ⇒ EMPTY; list level 0 ⇒ QUESTION,
1 ⇒ OPTION (text unchanged); else the regex fallbacks with the matched
prefix stripped and the remainder trimmed; else OTHER. -/
def classify_paragraph (p : RawParagraph) : Kind × Option String :=
  let text := strTrim p.text
  if text = "" then (Kind.EMPTY, none)
  else
    let lvl := get_list_level p
    if lvl = some 0 then (Kind.QUESTION, some text)
    else if lvl = some 1 then (Kind.OPTION, some text)
    else if qReMatch text then (Kind.QUESTION, some (strTrim (qReSub text)))
    else if optReMatch text then (Kind.OPTION, some (strTrim (optReSub text)))
    else (Kind.OTHER, some text)

/-- `is_correct_option(paragraph)`: true iff some run has non-whitespace text
and is bold. -/
def is_correct_option (p : RawParagraph) : Bool :=
  p.runs.any (fun r => !(strTrim r.text = "") && r.bold)

/-! ### Assembler (`parse_docx_mcq`)

The loop state of `parse_docx_mcq` is `current_q` and `last_kind`.  In the
source, `current_q` is always the most recently appended question of the
draft, and it is `None` exactly when the draft has no questions yet; the
state therefore carries the questions built so far in reverse order
(`revQuestions`, head = current question), the warnings emitted so far, and
`last_kind`. -/

/-- The assembler's loop state. -/
structure AState where
  revQuestions : List Question
  warnings : List String
  lastKind : Option Kind
deriving DecidableEq

/-- The initial state: no current question, no warnings, no last kind. -/
def initState : AState := ⟨[], [], none⟩

/-- Rewrite the last element of a list in place. -/
def modifyLast (f : α → α) : List α → List α
  | [] => []
  | [a] => [f a]
  | a :: b :: rest => a :: modifyLast f (b :: rest)

/-- The re-classification guard applied to the classifier's kind: a QUESTION
arriving while a current question exists, whose classified text has no `?`
and whose raw trimmed text does not match `Q_RE`, is downgraded to OPTION. -/
def effectiveKind (s : AState) (p : RawParagraph) : Kind :=
  let ct := classify_paragraph p
  if ct.1 = Kind.QUESTION ∧ s.revQuestions ≠ [] ∧
      strContainsChar (ct.2.getD "") '?' = false ∧ qReMatch (strTrim p.text) = false
  then Kind.OPTION else ct.1

/-- One iteration of the assembler loop on one paragraph. -/
def step (s : AState) (p : RawParagraph) : AState :=
  let ct := classify_paragraph p
  if ct.1 = Kind.EMPTY then s
  else
    let text := ct.2.getD ""
    match effectiveKind s p with
    | Kind.QUESTION =>
      let q2 : Question := ⟨text, []⟩
      { s with revQuestions := q2 :: s.revQuestions,
               lastKind := some Kind.QUESTION }
    | Kind.OPTION =>
      match s.revQuestions with
      | [] =>
        { s with warnings := s.warnings ++ ["Option without a question: " ++ strTake text 40] }
      | q :: rest =>
        let q2 := { q with options := q.options ++ [⟨text, is_correct_option p⟩] }
        { s with revQuestions := q2 :: rest, lastKind := some Kind.OPTION }
    | _ =>
      match s.revQuestions with
      | [] => s
      | q :: rest =>
        if s.lastKind = some Kind.OPTION ∧ q.options ≠ [] then
          let q2 := { q with
            options := modifyLast (fun o => { o with text := o.text ++ " " ++ text }) q.options }
          { s with revQuestions := q2 :: rest }
        else
          let q2 := { q with text := q.text ++ " " ++ text }
          { s with revQuestions := q2 :: rest }

/-- The assembly phase: fold the loop body over the paragraph sequence. -/
def assemble (ps : List RawParagraph) : AState := ps.foldl step initState

/-- The validation warnings of the question with 1-based index `i`. -/
def questionWarnings (i : Nat) (q : Question) : List String :=
  (if q.options.length < 2 then ["Question " ++ toString i ++ " has <2 options."] else []) ++
  (if q.options.countP (fun o => o.isCorrect) ≠ 1
   then ["Question " ++ toString i ++ " does not have exactly 1 bold answer."] else [])

/-- The validation pass over the assembled questions, indices starting at `i`. -/
def validationWarnings (i : Nat) : List Question → List String
  | [] => []
  | q :: rest => questionWarnings i q ++ validationWarnings (i + 1) rest

/-- `parse_docx_mcq`: assemble, then append the validation warnings; the
title is the fixed literal. -/
def parse_docx_mcq (ps : List RawParagraph) : Draft :=
  let s := assemble ps
  let qs := s.revQuestions.reverse
  { title := "Imported Quiz", questions := qs,
    warnings := s.warnings ++ validationWarnings 1 qs }

/-! ### Derived quantities and invariants used by the claims -/

/-- Total number of options across a list of questions. -/
def totalOptions : List Question → Nat
  | [] => 0
  | q :: qs => q.options.length + totalOptions qs

/-- One assembler iteration paired with a counter that increments exactly when
the paragraph's post-guard kind is OPTION and a current question exists at
that moment (such a paragraph is appended as an option, not discarded). -/
def stepCountAttached (c : AState × Nat) (p : RawParagraph) : AState × Nat :=
  (step c.1 p,
   c.2 + if effectiveKind c.1 p = Kind.OPTION ∧ c.1.revQuestions ≠ [] then 1 else 0)

/-- Number of paragraphs appended as options over a whole assembly run. -/
def attachedOptionCount (ps : List RawParagraph) : Nat :=
  (ps.foldl stepCountAttached (initState, 0)).2

/-- One assembler iteration paired with a counter that increments exactly when
the CLASSIFIER's kind (before the re-classification guard) is OPTION and a
current question exists at that moment. -/
def stepCountClassified (c : AState × Nat) (p : RawParagraph) : AState × Nat :=
  (step c.1 p,
   c.2 + if (classify_paragraph p).1 = Kind.OPTION ∧ c.1.revQuestions ≠ [] then 1 else 0)

/-- Number of paragraphs the classifier marks OPTION that arrive while a
current question exists (the count named by the ownership property). -/
def classifiedOptionCount (ps : List RawParagraph) : Nat :=
  (ps.foldl stepCountClassified (initState, 0)).2

/-- The assembler invariant: whenever `last_kind` is OPTION, a current
question exists and its option list is non-empty. -/
def GoodState (s : AState) : Prop :=
  s.lastKind = some Kind.OPTION →
    ∃ q rest, s.revQuestions = q :: rest ∧ q.options ≠ []

/-! ### Concrete paragraphs used by the scenario parts of the claims -/

/-- A level-0 list paragraph reading `Name a color`. -/
def pColor : RawParagraph := ⟨"Name a color", "", some 0, []⟩

/-- A level-0 list paragraph reading `red` (no `?`, no manual numbering). -/
def pRed : RawParagraph := ⟨"red", "", some 0, []⟩

/-- A level-1 list paragraph reading `red` (classified OPTION). -/
def pOrphanRed : RawParagraph := ⟨"red", "", some 1, []⟩

/-- A plain paragraph with manual numbering `1.` and a question mark. -/
def pCapital : RawParagraph := ⟨"1. What is the capital of France?", "Normal", none, []⟩

/-- A plain paragraph with manual lettering `B)`. -/
def pLyon : RawParagraph := ⟨"B) Lyon", "Normal", none, []⟩

/-- A plain paragraph with neither numbering nor lettering. -/
def pHello : RawParagraph := ⟨"hello there", "Normal", none, []⟩

/-- A paragraph whose only bold run is whitespace-only. -/
def pWsBold : RawParagraph := ⟨"x", "Normal", none, [⟨"   ", true⟩]⟩

/-- A paragraph with a bold non-whitespace run. -/
def pRealBold : RawParagraph := ⟨"4", "Normal", none, [⟨"4", true⟩]⟩

/-! ### Helper lemmas -/

theorem modifyLast_cons_cons (f : α → α) (a b : α) (l : List α) :
    modifyLast f (a :: b :: l) = a :: modifyLast f (b :: l) := rfl

theorem modifyLast_ne_nil (f : α → α) (l : List α) (hl : l ≠ []) :
    modifyLast f l ≠ [] := by
  cases l with
  | nil => exact absurd rfl hl
  | cons a l =>
    cases l with
    | nil => simp [modifyLast]
    | cons b l' => simp [modifyLast]

theorem length_modifyLast (f : α → α) (l : List α) :
    (modifyLast f l).length = l.length := by
  induction l with
  | nil => rfl
  | cons a l ih =>
    cases l with
    | nil => rfl
    | cons b l' => simpa [modifyLast] using ih

theorem modifyLast_eq_dropLast_append (f : α → α) (l : List α) (d : α) (hl : l ≠ []) :
    modifyLast f l = l.dropLast ++ [f (l.getLastD d)] := by
  induction l with
  | nil => exact absurd rfl hl
  | cons a l ih =>
    cases l with
    | nil => simp [modifyLast]
    | cons b l' =>
      have h2 := ih (by simp)
      simp only [modifyLast_cons_cons, h2]
      simp [List.getLastD]

theorem totalOptions_append (l₁ l₂ : List Question) :
    totalOptions (l₁ ++ l₂) = totalOptions l₁ + totalOptions l₂ := by
  induction l₁ with
  | nil => simp [totalOptions]
  | cons q l ih => simp [totalOptions, ih]; omega

theorem totalOptions_reverse (l : List Question) :
    totalOptions l.reverse = totalOptions l := by
  induction l with
  | nil => rfl
  | cons q l ih => simp [totalOptions, List.reverse_cons, totalOptions_append, ih]; omega

/-! ### Claim theorems -/

/-- C9: handed zero paragraphs, extraction returns a draft with an empty
question sequence, an empty warning sequence, and title `"Imported Quiz"`. -/
theorem C9_empty_input_yields_empty_draft :
    parse_docx_mcq [] = { title := "Imported Quiz", questions := [], warnings := [] } := rfl

/-- C7: the correctness detector returns true iff some run of the paragraph
has text that is non-empty after stripping whitespace and is flagged bold;
a paragraph all of whose bold runs are whitespace-only is not correct. -/
theorem C7_correct_iff_nonwhitespace_bold_run (p : RawParagraph) :
    (is_correct_option p = true ↔
      ∃ r ∈ p.runs, strTrim r.text ≠ "" ∧ r.bold = true) ∧
    ((∀ r ∈ p.runs, r.bold = true → strTrim r.text = "") → is_correct_option p = false) := by
  have hiff : is_correct_option p = true ↔
      ∃ r ∈ p.runs, strTrim r.text ≠ "" ∧ r.bold = true := by
    simp [is_correct_option, List.any_eq_true]
  refine ⟨hiff, fun h => ?_⟩
  cases hb : is_correct_option p with
  | false => rfl
  | true =>
    obtain ⟨r, hr, hne, hbold⟩ := hiff.mp hb
    exact absurd (h r hr hbold) hne

/-- C7 witness: a paragraph whose only bold run is whitespace-only is not
correct, and a paragraph with a bold non-whitespace run is. -/
theorem C7_correct_iff_nonwhitespace_bold_run_witness :
    is_correct_option pWsBold = false ∧ is_correct_option pRealBold = true := by
  constructor
  · exact (C7_correct_iff_nonwhitespace_bold_run pWsBold).2 (by decide)
  · exact (C7_correct_iff_nonwhitespace_bold_run pRealBold).1.mpr
      ⟨⟨"4", true⟩, by decide, by decide, rfl⟩

/-- C6: the list-level resolver returns a direct list-numbering index
verbatim when one is present; otherwise, for a style name beginning
(case-insensitively) with `list number` it returns the level computed from
the trailing numeral token (`List Number` ⇒ 0, `List Number 2` ⇒ 1,
`List Number 3` ⇒ 2); otherwise it returns no level. -/
theorem C6_list_level_resolver (p : RawParagraph) :
    (∀ i : Int, p.ilvl = some i → get_list_level p = some i) ∧
    (p.ilvl = none → strStartsWith (strToLower p.styleName) "list number" = true →
      get_list_level p = some (listNumberLevel (strToLower p.styleName))) ∧
    (p.ilvl = none → strStartsWith (strToLower p.styleName) "list number" = false →
      get_list_level p = none) ∧
    get_list_level ⟨"", "List Number", none, []⟩ = some 0 ∧
    get_list_level ⟨"", "List Number 2", none, []⟩ = some 1 ∧
    get_list_level ⟨"", "List Number 3", none, []⟩ = some 2 := by
  refine ⟨fun i hi => ?_, fun h0 hs => ?_, fun h0 hs => ?_, by decide, by decide, by decide⟩
  · simp [get_list_level, hi]
  · simp [get_list_level, h0, hs]
  · simp [get_list_level, h0, hs]

/-- C6 witness: a paragraph with direct numbering index 5 resolves to 5, and
the style-name fallbacks of the claim evaluate as stated. -/
theorem C6_list_level_resolver_witness :
    get_list_level ⟨"", "List Number 3", some 5, []⟩ = some 5 := by
  exact (C6_list_level_resolver ⟨"", "List Number 3", some 5, []⟩).1 5 rfl

/-- C5: for a paragraph whose trimmed text is non-empty and whose resolved
list level is neither 0 nor 1, the classifier tries the manual-numbering
question pattern (⇒ QUESTION, prefix stripped), then the letter pattern
(⇒ OPTION, prefix stripped), else returns OTHER with the trimmed text
unchanged. -/
theorem C5_classifier_regex_fallback (p : RawParagraph)
    (h0 : ¬ strTrim p.text = "")
    (h1 : ¬ get_list_level p = some 0) (h2 : ¬ get_list_level p = some 1) :
    classify_paragraph p =
      (if qReMatch (strTrim p.text) then
        (Kind.QUESTION, some (strTrim (qReSub (strTrim p.text))))
       else if optReMatch (strTrim p.text) then
        (Kind.OPTION, some (strTrim (optReSub (strTrim p.text))))
       else (Kind.OTHER, some (strTrim p.text))) ∧
    classify_paragraph pCapital = (Kind.QUESTION, some "What is the capital of France?") ∧
    classify_paragraph pLyon = (Kind.OPTION, some "Lyon") ∧
    classify_paragraph pHello = (Kind.OTHER, some "hello there") := by
  refine ⟨?_, by decide, by decide, by decide⟩
  simp only [classify_paragraph]
  rw [if_neg h0, if_neg h1, if_neg h2]

/-- C5 witness: the fallback instantiated at the manually numbered paragraph
`1. What is the capital of France?`. -/
theorem C5_classifier_regex_fallback_witness :
    classify_paragraph pCapital =
      (Kind.QUESTION, some "What is the capital of France?") := by
  exact (C5_classifier_regex_fallback pCapital (by decide) (by decide) (by decide)).2.1

/-- C3: an OPTION paragraph arriving while no current question exists appends
exactly one warning `Option without a question: ` plus the first 40 chars of
the classified text, and changes nothing else; `[OPTION "red"]` yields zero
questions and exactly that warning. -/
theorem C3_orphan_option_warning (s : AState) (p : RawParagraph) (t : String)
    (hc : classify_paragraph p = (Kind.OPTION, some t))
    (hno : s.revQuestions = []) :
    step s p = { s with warnings := s.warnings ++ ["Option without a question: " ++ strTake t 40] } ∧
    parse_docx_mcq [pOrphanRed] =
      { title := "Imported Quiz", questions := [],
        warnings := ["Option without a question: red"] } := by
  refine ⟨?_, by decide⟩
  simp only [step, effectiveKind, hc, hno]
  simp

/-- C3 witness: the orphan-option warning at the concrete paragraph `red`
from the empty initial state. -/
theorem C3_orphan_option_warning_witness :
    step initState pOrphanRed =
      { revQuestions := [], warnings := ["Option without a question: red"], lastKind := none } := by
  rw [(C3_orphan_option_warning initState pOrphanRed "red" (by decide) rfl).1]
  decide

/-- C2: an OTHER paragraph while a current question exists merges into the
last option's text (exactly `previousText ++ " " ++ otherText`) when
lastKind is OPTION and the question has an option, else into the current
question's text; lastKind is unchanged in both cases; with no current
question the paragraph is silently discarded, changing no state. -/
theorem C2_other_continuation (s : AState) (p : RawParagraph) (t : String)
    (hc : classify_paragraph p = (Kind.OTHER, some t)) :
    (s.revQuestions = [] → step s p = s) ∧
    (∀ q rest, s.revQuestions = q :: rest →
      (s.lastKind = some Kind.OPTION ∧ q.options ≠ [] →
        step s p = { s with revQuestions :=
          ({ q with options := q.options.dropLast ++
              [{ text := (q.options.getLastD ⟨"", false⟩).text ++ " " ++ t,
                 isCorrect := (q.options.getLastD ⟨"", false⟩).isCorrect }] } :: rest) }) ∧
      (¬(s.lastKind = some Kind.OPTION ∧ q.options ≠ []) →
        step s p = { s with revQuestions := ({ q with text := q.text ++ " " ++ t } :: rest) })) := by
  refine ⟨fun hno => ?_, fun q rest hrev => ⟨fun hopt => ?_, fun hnopt => ?_⟩⟩
  · simp only [step, effectiveKind, hc, hno]
    simp
  · simp only [step, effectiveKind, hc, hrev, Option.getD_some]
    simp [hopt]
    rw [modifyLast_eq_dropLast_append (fun o => { o with text := o.text ++ " " ++ t })
      q.options ⟨"", false⟩ hopt.2]
    simp [List.getLastD_eq_getLast?]
  · simp only [step, effectiveKind, hc, hrev]
    simp [hnopt]

/-- C2 witness: the continuation-line scenario `[QUESTION "Explain gravity",
OPTION "It pulls objects", OTHER "toward each other."]` merges the OTHER text
into the single option. -/
theorem C2_other_continuation_witness :
    step ⟨[⟨"Explain gravity", [⟨"It pulls objects", false⟩]⟩], [], some Kind.OPTION⟩
        ⟨"toward each other.", "Normal", none, []⟩ =
      ⟨[⟨"Explain gravity", [⟨"It pulls objects toward each other.", false⟩]⟩], [],
        some Kind.OPTION⟩ := by
  rw [((C2_other_continuation ⟨[⟨"Explain gravity", [⟨"It pulls objects", false⟩]⟩], [],
        some Kind.OPTION⟩ ⟨"toward each other.", "Normal", none, []⟩ "toward each other."
        (by decide)).2 ⟨"Explain gravity", [⟨"It pulls objects", false⟩]⟩ [] rfl).1
      ⟨rfl, by decide⟩]
  decide

/-- When the classifier returns QUESTION but `Q_RE` does not match the raw
trimmed text, the QUESTION came from list level 0, so the classified text is
the raw trimmed text itself. -/
theorem classify_question_no_qre_text (p : RawParagraph) (t : String)
    (hc : classify_paragraph p = (Kind.QUESTION, some t))
    (hn : qReMatch (strTrim p.text) = false) : t = strTrim p.text := by
  simp only [classify_paragraph] at hc
  by_cases h0 : strTrim p.text = ""
  · rw [if_pos h0] at hc
    simp at hc
  · rw [if_neg h0] at hc
    by_cases hl0 : get_list_level p = some 0
    · rw [if_pos hl0] at hc
      simp only [Prod.mk.injEq, Option.some.injEq] at hc
      exact hc.2.symm
    · rw [if_neg hl0] at hc
      by_cases hl1 : get_list_level p = some 1
      · rw [if_pos hl1] at hc
        simp at hc
      · rw [if_neg hl1] at hc
        rw [if_neg (by simp [hn])] at hc
        by_cases ho : optReMatch (strTrim p.text) = true
        · rw [if_pos ho] at hc
          simp at hc
        · rw [if_neg ho] at hc
          simp at hc

/-- C1: a paragraph classified QUESTION while a current question exists,
whose raw trimmed text has no question mark and does not match the
manual-numbering question pattern, is appended as an OPTION of the current
question (isCorrect from the correctness detector) instead of starting a new
question; `[QUESTION "Name a color", QUESTION "red"]` yields one question
with `red` among its options. -/
theorem C1_ambiguous_question_downgraded (s : AState) (p : RawParagraph) (t : String)
    (hc : classify_paragraph p = (Kind.QUESTION, some t))
    (hq : strContainsChar (strTrim p.text) '?' = false)
    (hn : qReMatch (strTrim p.text) = false) :
    (∀ q rest, s.revQuestions = q :: rest →
      step s p = { s with
        revQuestions := ({ q with options :=
          q.options ++ [{ text := t, isCorrect := is_correct_option p }] } :: rest),
        lastKind := some Kind.OPTION }) ∧
    (parse_docx_mcq [pColor, pRed]).questions.map
        (fun q => (q.text, q.options.map (fun o => o.text))) = [("Name a color", ["red"])] := by
  refine ⟨fun q rest hrev => ?_, by decide⟩
  have ht : t = strTrim p.text := classify_question_no_qre_text p t hc hn
  have hq2 : strContainsChar t '?' = false := ht ▸ hq
  simp [step, effectiveKind, hc, hrev, hq2, hn]

/-- C1 witness: the ambiguous re-classification scenario itself, one step
after the first question has been assembled. -/
theorem C1_ambiguous_question_downgraded_witness :
    step ⟨[⟨"Name a color", []⟩], [], some Kind.QUESTION⟩ pRed =
      ⟨[⟨"Name a color", [⟨"red", false⟩]⟩], [], some Kind.OPTION⟩ := by
  rw [(C1_ambiguous_question_downgraded ⟨[⟨"Name a color", []⟩], [], some Kind.QUESTION⟩
      pRed "red" (by decide) (by decide) (by decide)).1 ⟨"Name a color", []⟩ [] rfl]
  decide

/-- C4: validation only appends warnings, per question in order — the
`has <2 options.` warning exactly when the question has fewer than 2
options, then the `does not have exactly 1 bold answer.` warning exactly
when its bold-option count differs from 1 — and the draft's questions are
exactly the assembler's, unchanged; a question with one unbold option gets
both warnings in that order. -/
theorem C4_validator_appends_in_order :
    (∀ ps : List RawParagraph,
      (parse_docx_mcq ps).questions = (assemble ps).revQuestions.reverse ∧
      (parse_docx_mcq ps).warnings =
        (assemble ps).warnings ++ validationWarnings 1 ((assemble ps).revQuestions.reverse)) ∧
    (∀ (i : Nat) (q : Question) (rest : List Question),
      validationWarnings i (q :: rest) =
        (if q.options.length < 2 then ["Question " ++ toString i ++ " has <2 options."] else []) ++
        ((if q.options.countP (fun o => o.isCorrect) ≠ 1
          then ["Question " ++ toString i ++ " does not have exactly 1 bold answer."] else []) ++
         validationWarnings (i + 1) rest)) ∧
    validationWarnings 1 [⟨"T", [⟨"a", false⟩]⟩] =
      ["Question 1 has <2 options.", "Question 1 does not have exactly 1 bold answer."] := by
  refine ⟨fun ps => ⟨rfl, rfl⟩, fun i q rest => ?_, by decide⟩
  simp [validationWarnings, questionWarnings]

/-- One assembler step changes the total option count by exactly 1 when the
post-guard kind is OPTION and a current question exists, and by 0 otherwise. -/
theorem step_totalOptions (s : AState) (p : RawParagraph) :
    totalOptions (step s p).revQuestions =
      totalOptions s.revQuestions +
        (if effectiveKind s p = Kind.OPTION ∧ s.revQuestions ≠ [] then 1 else 0) := by
  rcases hct : classify_paragraph p with ⟨k, txt⟩
  by_cases hk : k = Kind.EMPTY
  · subst hk
    simp [step, effectiveKind, hct]
  · by_cases hg : k = Kind.QUESTION ∧ s.revQuestions ≠ [] ∧
        strContainsChar (txt.getD "") '?' = false ∧ qReMatch (strTrim p.text) = false
    · obtain ⟨hkq, hne, h3, h4⟩ := hg
      subst hkq
      rcases hrev : s.revQuestions with _ | ⟨q, rest⟩
      · exact absurd hrev hne
      · simp [step, effectiveKind, hct, hrev, h3, h4, totalOptions]
        omega
    · cases k with
      | EMPTY => exact absurd rfl hk
      | QUESTION =>
        rcases hrev : s.revQuestions with _ | ⟨q, rest⟩
        · simp [step, effectiveKind, hct, hrev, totalOptions]
        · by_cases hc1 : strContainsChar (txt.getD "") '?' = false
          · by_cases hc2 : qReMatch (strTrim p.text) = false
            · exact absurd ⟨rfl, by simp [hrev], hc1, hc2⟩ hg
            · simp [step, effectiveKind, hct, hrev, hc1, hc2, totalOptions]
          · simp [step, effectiveKind, hct, hrev, hc1, totalOptions]
      | OPTION =>
        rcases hrev : s.revQuestions with _ | ⟨q, rest⟩
        · simp [step, effectiveKind, hct, hrev, totalOptions]
        · simp [step, effectiveKind, hct, hrev, totalOptions]
          omega
      | OTHER =>
        rcases hrev : s.revQuestions with _ | ⟨q, rest⟩
        · simp [step, effectiveKind, hct, hrev, totalOptions]
        · by_cases hlk : s.lastKind = some Kind.OPTION ∧ q.options ≠ []
          · simp [step, effectiveKind, hct, hrev, hlk, totalOptions, length_modifyLast]
          · simp [step, effectiveKind, hct, hrev, hlk, totalOptions]

/-- The counting fold tracks the assembler fold and accumulates exactly the
per-step option-count increments. -/
theorem foldl_stepCountAttached (ps : List RawParagraph) (s : AState) (n : Nat) :
    (ps.foldl stepCountAttached (s, n)).1 = ps.foldl step s ∧
    (ps.foldl stepCountAttached (s, n)).2 + totalOptions s.revQuestions =
      n + totalOptions (ps.foldl step s).revQuestions := by
  induction ps generalizing s n with
  | nil => simp
  | cons p ps ih =>
    simp only [List.foldl_cons, stepCountAttached]
    obtain ⟨ih1, ih2⟩ := ih (step s p)
      (n + if effectiveKind s p = Kind.OPTION ∧ s.revQuestions ≠ [] then 1 else 0)
    refine ⟨ih1, ?_⟩
    have hs := step_totalOptions s p
    omega

/-- C8 counterexample: on `[QUESTION "Name a color", QUESTION "red"]` the
returned draft has 1 option in total, while 0 paragraphs are classified
OPTION by the classifier (orphaned or not) — the second paragraph becomes an
option only through the assembler's re-classification guard. -/
theorem C8_counterexample_classifier_count :
    totalOptions (parse_docx_mcq [pColor, pRed]).questions = 1 ∧
    classifiedOptionCount [pColor, pRed] = 0 ∧
    totalOptions (parse_docx_mcq [pColor, pRed]).questions ≠
      classifiedOptionCount [pColor, pRed] := by
  refine ⟨by decide, by decide, by decide⟩

/-- C8 amended: the total number of options in the returned draft equals the
number of paragraphs whose kind after the re-classification guard is OPTION
(classifier-OPTION paragraphs and downgraded QUESTION paragraphs alike) that
arrived while a current question existed. -/
theorem C8_option_count_conservation (ps : List RawParagraph) :
    totalOptions (parse_docx_mcq ps).questions = attachedOptionCount ps := by
  have h := (foldl_stepCountAttached ps initState 0).2
  simp only [initState, totalOptions] at h
  simp only [parse_docx_mcq, assemble, attachedOptionCount, totalOptions_reverse, initState]
  omega

/-- C10: throughout assembly, whenever lastKind = OPTION the current question
exists and its option sequence is non-empty (so the continuation branch that
rewrites the last option never faces an empty option list): the invariant
holds initially, is preserved by every assembler step, and therefore holds
after assembling any paragraph sequence. -/
theorem C10_lastkind_option_invariant :
    GoodState initState ∧
    (∀ s p, GoodState s → GoodState (step s p)) ∧
    (∀ ps, GoodState (assemble ps)) := by
  have hinit : GoodState initState := by
    intro h
    simp [initState] at h
  have hstep : ∀ s p, GoodState s → GoodState (step s p) := by
    intro s p hgood
    rcases hct : classify_paragraph p with ⟨k, txt⟩
    by_cases hk : k = Kind.EMPTY
    · subst hk
      have hs : step s p = s := by simp [step, hct]
      rw [hs]
      exact hgood
    · by_cases hg : k = Kind.QUESTION ∧ s.revQuestions ≠ [] ∧
          strContainsChar (txt.getD "") '?' = false ∧ qReMatch (strTrim p.text) = false
      · obtain ⟨hkq, hne, h3, h4⟩ := hg
        subst hkq
        rcases hrev : s.revQuestions with _ | ⟨q, rest⟩
        · exact absurd hrev hne
        · have hs : step s p = { s with
              revQuestions := ({ q with options :=
                q.options ++ [⟨txt.getD "", is_correct_option p⟩] } :: rest),
              lastKind := some Kind.OPTION } := by
            simp [step, effectiveKind, hct, hrev, h3, h4]
          rw [hs]
          intro _
          exact ⟨_, rest, rfl, by simp⟩
      · cases k with
        | EMPTY => exact absurd rfl hk
        | QUESTION =>
          rcases hrev : s.revQuestions with _ | ⟨q, rest⟩
          · have hs : step s p = { s with
                revQuestions := [⟨txt.getD "", []⟩], lastKind := some Kind.QUESTION } := by
              simp [step, effectiveKind, hct, hrev]
            rw [hs]
            intro hlk
            simp at hlk
          · by_cases hc1 : strContainsChar (txt.getD "") '?' = false
            · by_cases hc2 : qReMatch (strTrim p.text) = false
              · exact absurd ⟨rfl, by simp [hrev], hc1, hc2⟩ hg
              · have hs : step s p = { s with
                    revQuestions := (⟨txt.getD "", []⟩ : Question) :: q :: rest,
                    lastKind := some Kind.QUESTION } := by
                  simp [step, effectiveKind, hct, hrev, hc1, hc2]
                rw [hs]
                intro hlk
                simp at hlk
            · have hs : step s p = { s with
                  revQuestions := (⟨txt.getD "", []⟩ : Question) :: q :: rest,
                  lastKind := some Kind.QUESTION } := by
                simp [step, effectiveKind, hct, hrev, hc1]
              rw [hs]
              intro hlk
              simp at hlk
        | OPTION =>
          rcases hrev : s.revQuestions with _ | ⟨q, rest⟩
          · have hs : step s p = { s with
                warnings := s.warnings ++ ["Option without a question: " ++ strTake (txt.getD "") 40] } := by
              simp [step, effectiveKind, hct, hrev]
            rw [hs]
            intro hlk
            obtain ⟨q', rest', heq, _⟩ := hgood hlk
            rw [hrev] at heq
            cases heq
          · have hs : step s p = { s with
                revQuestions := ({ q with options :=
                  q.options ++ [⟨txt.getD "", is_correct_option p⟩] } :: rest),
                lastKind := some Kind.OPTION } := by
              simp [step, effectiveKind, hct, hrev]
            rw [hs]
            intro _
            exact ⟨_, rest, rfl, by simp⟩
        | OTHER =>
          rcases hrev : s.revQuestions with _ | ⟨q, rest⟩
          · have hs : step s p = s := by simp [step, effectiveKind, hct, hrev]
            rw [hs]
            exact hgood
          · by_cases hlk2 : s.lastKind = some Kind.OPTION ∧ q.options ≠ []
            · have hs : step s p = { s with revQuestions := ({ q with options := modifyLast (fun o => { o with text := o.text ++ " " ++ txt.getD "" }) q.options } :: rest) } := by
                simp [step, effectiveKind, hct, hrev, hlk2]
              rw [hs]
              intro _
              exact ⟨_, rest, rfl, modifyLast_ne_nil _ q.options hlk2.2⟩
            · have hs : step s p = { s with
                  revQuestions := ({ q with text := q.text ++ " " ++ txt.getD "" } :: rest) } := by
                simp [step, effectiveKind, hct, hrev, hlk2]
              rw [hs]
              intro hlk
              obtain ⟨q', rest', heq, hopt⟩ := hgood hlk
              rw [hrev] at heq
              cases heq
              exact ⟨_, rest, rfl, hopt⟩
  refine ⟨hinit, hstep, fun ps => ?_⟩
  have hall : ∀ (l : List RawParagraph) (s : AState), GoodState s → GoodState (l.foldl step s) := by
    intro l
    induction l with
    | nil => intro s hs; simpa using hs
    | cons p l ih => intro s hs; exact ih (step s p) (hstep s p hs)
  exact hall ps initState hinit

/-- C10 witness: preservation applied at the initial state and the concrete
paragraph `red`, the initial-state hypothesis discharged explicitly. -/
theorem C10_lastkind_option_invariant_witness :
    GoodState (step initState pOrphanRed) :=
  C10_lastkind_option_invariant.2.1 initState pOrphanRed
    (fun h => by simp [initState] at h)
